import Mathlib

/-!
Verification of the directory-enumeration subsystem of a 9P file server
(`src/server/read_dir.rs`) and of the `syscall!` macro (`src/lib.rs`).

The native OS layer (file descriptors, `DIR*` streams, `errno`) is modelled
as an explicit state record `OSState`; each libc call used by the source
(`fcntl(F_DUPFD_CLOEXEC)`, `fdopendir`, `seekdir`, `readdir64`, `closedir`,
`close`) becomes a Lean function threading that state.  `closedir` / `close`
calls are additionally recorded in an event log so that "released exactly
once" properties can be stated as event counts.
-/

namespace P9

/-- A raw `dirent64` record as handed out by `readdir64`: fixed-width fields
plus the raw name buffer (`d_name: [c_char; 256]`, read as a byte slice). -/
structure RawDirent where
  d_ino : Nat
  d_off : Int
  d_type : Nat
  d_name : List Nat
  deriving DecidableEq, Repr

/-- What a descriptor refers to: a directory (with its entry list) or a
plain file. -/
inductive FileObj where
  | dir (entries : List RawDirent)
  | file
  deriving DecidableEq, Repr

/-- One open-descriptor table entry: its target object and its
close-on-exec flag. -/
structure FdEntry where
  target : FileObj
  cloexec : Bool
  deriving DecidableEq, Repr

/-- A native `DIR` stream: the underlying descriptor it owns, the entry
list it enumerates, and the current stream position (a `seekdir` location;
in this model, the index of the next entry). -/
structure DirStream where
  fd : Int
  entries : List RawDirent
  pos : Int
  deriving DecidableEq, Repr

/-- Logged resource-release events: a `closedir` on a stream, or a `close`
on a descriptor. -/
inductive Event where
  | closedirEv (d : Nat)
  | closeEv (fd : Int)
  deriving DecidableEq, Repr

/-- The errno value for a bad descriptor. -/
def EBADF : Nat := 9

/-- The errno for `fdopendir` on a descriptor that is not a directory. -/
def ENOTDIR : Nat := 20

/-- The modelled OS state: the descriptor table, the open `DIR` streams
(keyed by an opaque stream id standing for the `*mut DIR` pointer), the
thread's last-error value, and the release-event log. -/
structure OSState where
  fds : List (Int × FdEntry)
  streams : List (Nat × DirStream)
  lastError : Nat
  log : List Event
  deriving DecidableEq, Repr

/-- A fresh descriptor number: one past the largest key in the table.  The
kernel's lowest-unused policy is abstracted to any unused number; the
claims depend only on freshness. -/
def freshFd (st : OSState) : Int :=
  (st.fds.map Prod.fst).foldr max 0 + 1

/-- A fresh stream id (a `*mut DIR` never equal to a live one). -/
def freshStreamId (st : OSState) : Nat :=
  (st.streams.map Prod.fst).foldr max 0 + 1

/-- Model of `fcntl(fd, F_DUPFD_CLOEXEC, 0)`: duplicate an open descriptor, the new
descriptor having its close-on-exec flag already set; returns the new
descriptor, or `-1` with `errno = EBADF` if `fd` is not open. -/
def fcntl_dupfd_cloexec (st : OSState) (fd : Int) : OSState × Int :=
  if fd < 0 then ({ st with lastError := EBADF }, -1) else
  match st.fds.lookup fd with
  | none => ({ st with lastError := EBADF }, -1)
  | some e =>
      let nfd := freshFd st
      ({ st with fds := (nfd, { e with cloexec := true }) :: st.fds }, nfd)

/-- Model of `fdopendir(fd)`: open a `DIR` stream on an open directory descriptor,
the stream taking ownership of `fd`; returns the stream id, or `none`
(the NULL pointer) with `errno` set on failure. -/
def fdopendir (st : OSState) (fd : Int) : OSState × Option Nat :=
  if fd < 0 then ({ st with lastError := EBADF }, none) else
  match st.fds.lookup fd with
  | some ⟨FileObj.dir es, _⟩ =>
      let sid := freshStreamId st
      ({ st with streams := (sid, ⟨fd, es, 0⟩) :: st.streams }, some sid)
  | some ⟨FileObj.file, _⟩ => ({ st with lastError := ENOTDIR }, none)
  | none => ({ st with lastError := EBADF }, none)

/-- Model of `close(fd)`: release a descriptor; fails with `EBADF` if not open.
Every call is logged. -/
def close (st : OSState) (fd : Int) : OSState × Int :=
  if fd < 0 then
    ({ st with lastError := EBADF, log := st.log ++ [Event.closeEv fd] }, -1)
  else
  match st.fds.lookup fd with
  | some _ =>
      ({ st with fds := st.fds.eraseP (fun p => p.1 == fd),
                 log := st.log ++ [Event.closeEv fd] }, 0)
  | none =>
      ({ st with lastError := EBADF, log := st.log ++ [Event.closeEv fd] }, -1)

/-- Apply `f` to the stream registered under id `d` (the in-place update a
`DIR*` call performs on its stream object). -/
def updStream (l : List (Nat × DirStream)) (d : Nat) (f : DirStream → DirStream) :
    List (Nat × DirStream) :=
  l.map (fun p => if p.1 = d then (p.1, f p.2) else p)

/-- Model of `seekdir(d, loc)`: set the stream's position to `loc`. -/
def seekdir (st : OSState) (d : Nat) (loc : Int) : OSState :=
  { st with streams := updStream st.streams d (fun s => { s with pos := loc }) }

/-- Model of `readdir64(d)`: return the record at the current position and advance,
or `none` (the NULL pointer) at end of stream. -/
def readdir64 (st : OSState) (d : Nat) : OSState × Option RawDirent :=
  match st.streams.lookup d with
  | none => (st, none)
  | some s =>
      if 0 ≤ s.pos then
        match s.entries.get? s.pos.toNat with
        | some ent =>
            ({ st with streams :=
                 updStream st.streams d (fun t => { t with pos := t.pos + 1 }) },
             some ent)
        | none => (st, none)
      else (st, none)

/-- Model of `closedir(d)`: destroy the stream and close the descriptor it owns.
Every call is logged. -/
def closedir (st : OSState) (d : Nat) : OSState :=
  match st.streams.lookup d with
  | some s =>
      { st with streams := st.streams.eraseP (fun p => p.1 == d),
                fds := st.fds.eraseP (fun p => p.1 == s.fd),
                log := st.log ++ [Event.closedirEv d] }
  | none => { st with log := st.log ++ [Event.closedirEv d] }

/-- Errors as the source observes `std::io::Error`: an OS error captured from
the last-error state, or a validation error from `P9String` construction. -/
inductive IoErr where
  | osError (errno : Nat)
  | invalidInput
  deriving DecidableEq, Repr

/-- Modelled from the spec: `P9String` (from the `protocol` module, not in
the provided sources) is the length-prefixed wire string whose invariant is
that no embedded nul terminator leaks into the encoded form;
`P9String::new` validates candidate bytes against that invariant. -/
structure P9String where
  bytes : List Nat
  deriving DecidableEq, Repr

/-- Modelled from the spec: `P9String::new` accepts the bytes only when
they contain no nul byte, and fails with a validation error otherwise. -/
def P9String.new (b : List Nat) : Except IoErr P9String :=
  if 0 ∈ b then Except.error IoErr.invalidInput else Except.ok ⟨b⟩

/-- Model of `Iterator::position` over a byte slice: the index of the first byte
satisfying the predicate `c == 0`. -/
def position (b : List Nat) : Option Nat :=
  match b with
  | [] => none
  | c :: t => if c = 0 then some 0 else (position t).map (· + 1)

/-- Translation of `strip_padding`: trims everything from the first nul byte on.  The
source panics (via `expect`) when `b` contains no nul byte; the panic is
modelled as `none`. -/
def strip_padding (b : List Nat) : Option (List Nat) :=
  match position b with
  | some pos => some (b.take pos)
  | none => none

/-- Translation of `DirEntry`: one directory listing record as produced by
`ReadDir::next`. -/
structure DirEntry where
  ino : Nat
  offset : Nat
  type_ : Nat
  name : P9String
  deriving DecidableEq, Repr

/-- Translation of `ReadDir`: the reader object, owning one `DIR` stream. -/
structure ReadDir where
  dir : Nat
  deriving DecidableEq, Repr

/-- The observable outcome of one `ReadDir::next` call: `endOfStream` is
`None`, `entry` is `Some(Ok(..))`, `ioError` is `Some(Err(..))`, and
`panicked` is the `expect` panic (message: a complaint that `b` contains
no nul bytes) unwinding out of the call. -/
inductive NextOutcome where
  | endOfStream
  | entry (e : DirEntry)
  | ioError (e : IoErr)
  | panicked
  deriving DecidableEq, Repr

/-- Translation of `ReadDir::next`: read one raw record, strip the nul padding from its
name buffer, validate the name as a `P9String`, and assemble the
`DirEntry` (`offset` is `d_off as u64`). -/
def ReadDir.next (st : OSState) (rd : ReadDir) : OSState × NextOutcome :=
  let r := readdir64 st rd.dir
  match r.2 with
  | none => (r.1, NextOutcome.endOfStream)
  | some ent =>
      match strip_padding ent.d_name with
      | none => (r.1, NextOutcome.panicked)
      | some nb =>
          match P9String.new nb with
          | Except.error e => (r.1, NextOutcome.ioError e)
          | Except.ok name =>
              (r.1, NextOutcome.entry
                ⟨ent.d_ino, (ent.d_off % 2 ^ 64).toNat, ent.d_type, name⟩)

/-- Translation of `impl Drop for ReadDir`: the destructor closes the owned stream. -/
def ReadDir.drop (st : OSState) (rd : ReadDir) : OSState :=
  closedir st rd.dir

/-- Translation of `read_dir(dir, offset)`: duplicate the caller's descriptor with
close-on-exec, open a `DIR` stream on the duplicate, and seek it to
`offset`; on `fdopendir` failure, close the duplicate and return the
last OS error. -/
def read_dir (st : OSState) (fd : Int) (offset : Int) : OSState × Except IoErr ReadDir :=
  let r1 := fcntl_dupfd_cloexec st fd
  let dup_fd := r1.2
  let r2 := fdopendir r1.1 dup_fd
  match r2.2 with
  | none =>
      let r3 := close r2.1 dup_fd
      (r3.1, Except.error (IoErr.osError r3.1.lastError))
  | some d =>
      let rd : ReadDir := ⟨d⟩
      (seekdir r2.1 rd.dir offset, Except.ok rd)

/-- The `syscall!` macro: evaluate the expression once; a negative result
becomes `Err` carrying the last-error state, anything else is `Ok` with
the value unchanged. -/
def syscall (st : OSState) (res : Int) : Except IoErr Int :=
  if res < 0 then Except.error (IoErr.osError st.lastError) else Except.ok res

/-- Runs `n` successive `ReadDir::next` calls, keeping only the state (the
driver loop of a caller iterating the reader). -/
def runNexts (st : OSState) (rd : ReadDir) : Nat → OSState
  | 0 => st
  | n + 1 => runNexts (ReadDir.next st rd).1 rd n

/-- How many `closedir` calls on stream `d` the log records. -/
def countClosedir (l : List Event) (d : Nat) : Nat :=
  (l.filter (fun e => e = Event.closedirEv d)).length

end P9

open P9

/-! ### Basic facts about `position` and `strip_padding` -/

lemma position_eq_none_iff (b : List Nat) : position b = none ↔ 0 ∉ b := by
  induction b with
  | nil => simp [position]
  | cons c t ih =>
      by_cases hc : c = 0
      · subst hc
        simp [position]
      · constructor
        · intro h h0
          rcases List.mem_cons.mp h0 with h1 | h1
          · exact hc h1.symm
          · have hpn : position t = none := by
              simpa [position, hc, Option.map_eq_none'] using h
            exact (ih.mp hpn) h1
        · intro h
          have h0 : 0 ∉ t := fun ht => h (List.mem_cons_of_mem _ ht)
          simp [position, hc, Option.map_eq_none', ih.mpr h0]

lemma position_take (b : List Nat) (k : Nat) (h : position b = some k) :
    b.take k = b.takeWhile (fun c => c != 0) := by
  induction b generalizing k with
  | nil => simp [position] at h
  | cons c t ih =>
      by_cases hc : c = 0
      · subst hc
        have hk : k = 0 := by
          simp [position] at h
          omega
        subst hk
        simp [List.takeWhile_cons]
      · simp only [position, if_neg hc] at h
        cases hp : position t with
        | none => simp [hp] at h
        | some j =>
            rw [hp] at h
            simp only [Option.map_some', Option.some.injEq] at h
            subst h
            have hcb : (c != 0) = true := by simpa using hc
            simp [List.takeWhile_cons, hcb, List.take_succ_cons, ih j hp]

lemma strip_padding_of_mem (b : List Nat) (h : 0 ∈ b) :
    strip_padding b = some (b.takeWhile (fun c => c != 0)) := by
  cases hp : position b with
  | none => exact absurd h ((position_eq_none_iff b).mp hp)
  | some k => simp [strip_padding, hp, position_take b k hp]

lemma P9String.new_ok (b : List Nat) (s : P9String)
    (h : P9String.new b = Except.ok s) : s.bytes = b ∧ 0 ∉ b := by
  by_cases hb : 0 ∈ b
  · simp [P9String.new, hb] at h
  · simp only [P9String.new, if_neg hb] at h
    cases h
    exact ⟨rfl, hb⟩

/-- C3: for every byte slice containing at least one nul byte,
`strip_padding` returns exactly the bytes strictly before the first nul
byte (the longest nul-free prefix). -/
theorem C3_strip_padding_before_first_nul (b : List Nat) (h : 0 ∈ b) :
    strip_padding b = some (b.takeWhile (fun c => c != 0)) :=
  strip_padding_of_mem b h

/-- C3 witness: the spec examples `abc\0\0\0 = abc`, `..\0\0\0\0 = ..`,
and a slice beginning with nul yielding the empty string. -/
theorem C3_strip_padding_before_first_nul_witness :
    strip_padding [97, 98, 99, 0, 0, 0] = some [97, 98, 99] ∧
    strip_padding [46, 46, 0, 0, 0, 0] = some [46, 46] ∧
    strip_padding [0, 65, 66] = some [] := by
  refine ⟨?_, ?_, ?_⟩
  · have := C3_strip_padding_before_first_nul [97, 98, 99, 0, 0, 0] (by decide)
    simpa using this
  · have := C3_strip_padding_before_first_nul [46, 46, 0, 0, 0, 0] (by decide)
    simpa using this
  · have := C3_strip_padding_before_first_nul [0, 65, 66] (by decide)
    simpa using this

/-- C4: on a slice with no nul byte `strip_padding` panics (modelled as
`none`), a caller-side programming error rather than a returned protocol
error; under the precondition that some nul byte is present, the panic
branch is unreachable (the result is always `some`). -/
theorem C4_strip_padding_panics_without_nul (b : List Nat) :
    (0 ∉ b → strip_padding b = none) ∧
    (0 ∈ b → ∃ r, strip_padding b = some r) := by
  constructor
  · intro h
    have hp : position b = none := (position_eq_none_iff b).mpr h
    simp [strip_padding, hp]
  · intro h
    exact ⟨_, strip_padding_of_mem b h⟩

/-- C4 witness: a nul-free slice panics; a slice with a nul does not. -/
theorem C4_strip_padding_panics_without_nul_witness :
    strip_padding [110, 111] = none ∧ ∃ r, strip_padding [97, 0] = some r :=
  ⟨(C4_strip_padding_panics_without_nul [110, 111]).1 (by decide),
   (C4_strip_padding_panics_without_nul [97, 0]).2 (by decide)⟩

/-- C10: the `syscall!` macro yields `Err` carrying the last-error state
exactly when the evaluated expression is negative, and otherwise yields
`Ok` with the value unchanged. -/
theorem C10_syscall_err_iff_negative (st : OSState) (res : Int) :
    ((∃ er, syscall st res = Except.error er) ↔ res < 0) ∧
    (res < 0 → syscall st res = Except.error (IoErr.osError st.lastError)) ∧
    (¬ res < 0 → syscall st res = Except.ok res) := by
  refine ⟨⟨?_, ?_⟩, ?_, ?_⟩
  · rintro ⟨er, her⟩
    by_contra hn
    simp [syscall, hn] at her
  · intro hneg
    exact ⟨IoErr.osError st.lastError, by simp [syscall, hneg]⟩
  · intro hneg
    simp [syscall, hneg]
  · intro hn
    simp [syscall, hn]

/-- C10 witness: a negative result maps to `Err` with the captured errno,
a nonnegative result to `Ok` unchanged. -/
theorem C10_syscall_err_iff_negative_witness :
    syscall ⟨[], [], 7, []⟩ (-1) = Except.error (IoErr.osError 7) ∧
    syscall ⟨[], [], 7, []⟩ 3 = Except.ok 3 :=
  ⟨(C10_syscall_err_iff_negative ⟨[], [], 7, []⟩ (-1)).2.1 (by decide),
   (C10_syscall_err_iff_negative ⟨[], [], 7, []⟩ 3).2.2 (by decide)⟩

/-! ### Lookup / key infrastructure -/

lemma lookup_cons_self {α β : Type} [BEq α] [LawfulBEq α] (a : α) (b : β)
    (t : List (α × β)) : ((a, b) :: t).lookup a = some b := by
  simp [List.lookup]

lemma lookup_cons_ne {α β : Type} [BEq α] [LawfulBEq α] (a k : α) (b : β)
    (t : List (α × β)) (h : k ≠ a) : ((a, b) :: t).lookup k = t.lookup k := by
  have hb : (k == a) = false := beq_eq_false_iff_ne.mpr h
  simp [List.lookup, hb]

lemma not_mem_keys_lookup {α β : Type} [BEq α] [LawfulBEq α] (l : List (α × β)) (k : α)
    (h : k ∉ l.map Prod.fst) : l.lookup k = none := by
  induction l with
  | nil => rfl
  | cons p t ih =>
      obtain ⟨a, b⟩ := p
      simp only [List.map_cons, List.mem_cons] at h
      push_neg at h
      rw [lookup_cons_ne a k b t h.1]
      exact ih h.2

lemma lookup_mem_keys {α β : Type} [BEq α] [LawfulBEq α] (l : List (α × β)) (k : α)
    (v : β) (h : l.lookup k = some v) : k ∈ l.map Prod.fst := by
  by_contra hn
  rw [not_mem_keys_lookup l k hn] at h
  exact Option.noConfusion h

lemma lookup_eraseP_ne {α β : Type} [BEq α] [LawfulBEq α] (l : List (α × β)) (k fd : α)
    (h : fd ≠ k) : (l.eraseP (fun p => p.1 == k)).lookup fd = l.lookup fd := by
  induction l with
  | nil => rfl
  | cons p t ih =>
      obtain ⟨a, b⟩ := p
      by_cases ha : a = k
      · have hne : fd ≠ a := fun he => h (he.trans ha)
        have hp : ((a, b).1 == k) = true := by simpa using ha
        simp only [List.eraseP_cons, hp, cond_true]
        rw [lookup_cons_ne a fd b t hne]
      · have hp : ((a, b).1 == k) = false := by simpa using ha
        simp only [List.eraseP_cons, hp, cond_false]
        by_cases hfa : fd = a
        · subst hfa
          rw [lookup_cons_self, lookup_cons_self]
        · rw [lookup_cons_ne a fd b _ hfa, lookup_cons_ne a fd b t hfa, ih]

lemma lookup_eraseP_self {α β : Type} [BEq α] [LawfulBEq α] (l : List (α × β)) (k : α)
    (h : (l.map Prod.fst).count k ≤ 1) :
    (l.eraseP (fun p => p.1 == k)).lookup k = none := by
  induction l with
  | nil => rfl
  | cons p t ih =>
      obtain ⟨a, b⟩ := p
      by_cases ha : a = k
      · subst ha
        have hp : ((a, b).1 == a) = true := by simp
        simp only [List.eraseP_cons, hp, cond_true]
        have hcnt : (t.map Prod.fst).count a = 0 := by
          simp only [List.map_cons, List.count_cons_self] at h
          omega
        exact not_mem_keys_lookup t a (List.count_eq_zero.mp hcnt)
      · have hp : ((a, b).1 == k) = false := by simpa using ha
        simp only [List.eraseP_cons, hp, cond_false]
        have hk : k ≠ a := fun he => ha he.symm
        rw [lookup_cons_ne a k b _ hk]
        apply ih
        have hbk : (a == k) = false := beq_eq_false_iff_ne.mpr ha
        simp [List.count_cons, hbk] at h
        exact h

/-! ### Freshness of allocated descriptors and stream ids -/

lemma mem_le_foldr_max_int (l : List Int) (x : Int) (h : x ∈ l) :
    x ≤ l.foldr max 0 := by
  induction l with
  | nil => simp at h
  | cons a t ih =>
      rcases List.mem_cons.mp h with h1 | h1
      · subst h1
        exact le_max_left _ _
      · exact le_trans (ih h1) (le_max_right _ _)

lemma foldr_max_nonneg_int (l : List Int) : 0 ≤ l.foldr max 0 := by
  induction l with
  | nil => simp
  | cons a t ih => exact le_trans ih (le_max_right _ _)

lemma mem_le_foldr_max_nat (l : List Nat) (x : Nat) (h : x ∈ l) :
    x ≤ l.foldr max 0 := by
  induction l with
  | nil => simp at h
  | cons a t ih =>
      rcases List.mem_cons.mp h with h1 | h1
      · subst h1
        exact le_max_left _ _
      · exact le_trans (ih h1) (le_max_right _ _)

lemma freshFd_not_mem (st : OSState) : freshFd st ∉ st.fds.map Prod.fst := by
  intro h
  have h1 := mem_le_foldr_max_int (st.fds.map Prod.fst) _ h
  unfold freshFd at h1
  omega

lemma freshFd_lookup_none (st : OSState) : st.fds.lookup (freshFd st) = none :=
  not_mem_keys_lookup _ _ (freshFd_not_mem st)

lemma freshFd_nonneg (st : OSState) : 0 ≤ freshFd st := by
  have := foldr_max_nonneg_int (st.fds.map Prod.fst)
  unfold freshFd
  omega

lemma freshStreamId_not_mem (st : OSState) :
    freshStreamId st ∉ st.streams.map Prod.fst := by
  intro h
  have h1 := mem_le_foldr_max_nat (st.streams.map Prod.fst) _ h
  unfold freshStreamId at h1
  omega

lemma freshStreamId_lookup_none (st : OSState) :
    st.streams.lookup (freshStreamId st) = none :=
  not_mem_keys_lookup _ _ (freshStreamId_not_mem st)

/-! ### `updStream` facts -/

lemma updStream_cons_self (a : Nat) (s : DirStream) (t : List (Nat × DirStream))
    (f : DirStream → DirStream) :
    updStream ((a, s) :: t) a f = (a, f s) :: updStream t a f := by
  simp [updStream]

lemma updStream_keys (l : List (Nat × DirStream)) (d : Nat) (f : DirStream → DirStream) :
    (updStream l d f).map Prod.fst = l.map Prod.fst := by
  unfold updStream
  rw [List.map_map]
  apply List.map_congr_left
  intro p _
  by_cases h : p.1 = d <;> simp [h]

lemma updStream_of_not_mem (l : List (Nat × DirStream)) (d : Nat)
    (f : DirStream → DirStream) (h : d ∉ l.map Prod.fst) : updStream l d f = l := by
  unfold updStream
  conv_rhs => rw [← List.map_id l]
  apply List.map_congr_left
  intro p hp
  have hne : p.1 ≠ d := fun he => h (he ▸ List.mem_map_of_mem Prod.fst hp)
  simp [hne]

lemma lookup_updStream (l : List (Nat × DirStream)) (d : Nat)
    (f : DirStream → DirStream) (k : Nat) :
    (updStream l d f).lookup k =
      if k = d then (l.lookup k).map f else l.lookup k := by
  induction l with
  | nil =>
      by_cases h : k = d <;> simp [updStream, h, List.lookup]
  | cons p t ih =>
      obtain ⟨a, s⟩ := p
      by_cases had : a = d
      · subst had
        rw [updStream_cons_self]
        by_cases hka : k = a
        · subst hka
          rw [lookup_cons_self, lookup_cons_self]
          simp
        · rw [lookup_cons_ne a k (f s) _ hka, lookup_cons_ne a k s t hka, ih]
      · have hhd : updStream ((a, s) :: t) d f = (a, s) :: updStream t d f := by
          simp [updStream, had]
        rw [hhd]
        by_cases hka : k = a
        · subst hka
          rw [if_neg had, lookup_cons_self, lookup_cons_self]
        · rw [lookup_cons_ne a k s _ hka, ih]
          simp only [lookup_cons_ne a k s t hka]

/-! ### The shape of `read_dir` on the success and failure paths -/

lemma fcntl_ok (st : OSState) (fd : Int) (e : FdEntry) (hfd : ¬ fd < 0)
    (hl : st.fds.lookup fd = some e) :
    fcntl_dupfd_cloexec st fd =
      ({ st with fds := (freshFd st, { e with cloexec := true }) :: st.fds },
       freshFd st) := by
  simp [fcntl_dupfd_cloexec, hfd, hl]

lemma fdopendir_ok (st : OSState) (fd : Int) (es : List RawDirent) (x : Bool)
    (hfd : ¬ fd < 0) (hl : st.fds.lookup fd = some ⟨FileObj.dir es, x⟩) :
    fdopendir st fd =
      ({ st with streams := (freshStreamId st, ⟨fd, es, 0⟩) :: st.streams },
       some (freshStreamId st)) := by
  simp [fdopendir, hfd, hl]

lemma read_dir_ok_eq (st : OSState) (fd off : Int) (es : List RawDirent) (x : Bool)
    (hfd : ¬ fd < 0) (hl : st.fds.lookup fd = some ⟨FileObj.dir es, x⟩) :
    read_dir st fd off =
      ({ st with
           fds := (freshFd st, ⟨FileObj.dir es, true⟩) :: st.fds,
           streams := (freshStreamId st, ⟨freshFd st, es, off⟩) :: st.streams },
       Except.ok ⟨freshStreamId st⟩) := by
  have hnn : ¬ freshFd st < 0 := not_lt.mpr (freshFd_nonneg st)
  have e1 := fcntl_ok st fd ⟨FileObj.dir es, x⟩ hfd hl
  have e2 : fdopendir { st with fds := (freshFd st, ⟨FileObj.dir es, true⟩) :: st.fds }
      (freshFd st) =
      ({ st with
           fds := (freshFd st, ⟨FileObj.dir es, true⟩) :: st.fds,
           streams := (freshStreamId st, ⟨freshFd st, es, 0⟩) :: st.streams },
       some (freshStreamId st)) :=
    fdopendir_ok _ (freshFd st) es true hnn (lookup_cons_self _ _ _)
  simp only [read_dir, e1, e2, seekdir, updStream_cons_self,
    updStream_of_not_mem _ _ _ (freshStreamId_not_mem st)]

lemma read_dir_ok_inv (st : OSState) (fd off : Int) (rd : ReadDir)
    (h : (read_dir st fd off).2 = Except.ok rd) :
    ∃ es x, ¬ fd < 0 ∧ st.fds.lookup fd = some ⟨FileObj.dir es, x⟩ ∧
      rd = ⟨freshStreamId st⟩ ∧
      (read_dir st fd off).1 =
        { st with
            fds := (freshFd st, ⟨FileObj.dir es, true⟩) :: st.fds,
            streams := (freshStreamId st, ⟨freshFd st, es, off⟩) :: st.streams } := by
  by_cases hfd : fd < 0
  · exfalso
    simp [read_dir, fcntl_dupfd_cloexec, hfd, fdopendir] at h
  · cases hl : st.fds.lookup fd with
    | none =>
        exfalso
        simp [read_dir, fcntl_dupfd_cloexec, hfd, hl, fdopendir] at h
    | some e =>
        obtain ⟨tgt, cx⟩ := e
        have hnn : ¬ freshFd st < 0 := not_lt.mpr (freshFd_nonneg st)
        cases tgt with
        | file =>
            exfalso
            have e1 := fcntl_ok st fd ⟨FileObj.file, cx⟩ hfd hl
            simp [read_dir, e1, fdopendir, hnn, lookup_cons_self, close] at h
        | dir es =>
            have heq := read_dir_ok_eq st fd off es cx hfd hl
            rw [heq] at h
            simp only [] at h
            refine ⟨es, cx, hfd, rfl, ?_, ?_⟩
            · exact (Except.ok.inj h).symm
            · rw [heq]

/-! ### State effects of `ReadDir::next` and the iteration loop -/

lemma readdir64_streams_shape (st : OSState) (d : Nat) :
    (readdir64 st d).1 = st ∨
    (readdir64 st d).1 =
      { st with streams := updStream st.streams d (fun t => { t with pos := t.pos + 1 }) } := by
  unfold readdir64
  split
  · exact Or.inl rfl
  · split
    · split
      · exact Or.inr rfl
      · exact Or.inl rfl
    · exact Or.inl rfl

lemma next_fst (st : OSState) (rd : ReadDir) :
    (ReadDir.next st rd).1 = (readdir64 st rd.dir).1 := by
  simp only [ReadDir.next]
  split
  · rfl
  · split
    · rfl
    · split <;> rfl

lemma next_shape (st : OSState) (rd : ReadDir) :
    (ReadDir.next st rd).1 = st ∨
    (ReadDir.next st rd).1 =
      { st with streams := updStream st.streams rd.dir (fun t => { t with pos := t.pos + 1 }) } := by
  rw [next_fst]
  exact readdir64_streams_shape st rd.dir

lemma next_fds (st : OSState) (rd : ReadDir) :
    (ReadDir.next st rd).1.fds = st.fds := by
  rcases next_shape st rd with h | h <;> rw [h]

lemma next_log (st : OSState) (rd : ReadDir) :
    (ReadDir.next st rd).1.log = st.log := by
  rcases next_shape st rd with h | h <;> rw [h]

lemma next_stream_keys (st : OSState) (rd : ReadDir) :
    (ReadDir.next st rd).1.streams.map Prod.fst = st.streams.map Prod.fst := by
  rcases next_shape st rd with h | h
  · rw [h]
  · rw [h]
    show (updStream st.streams rd.dir fun t => { t with pos := t.pos + 1 }).map Prod.fst
        = st.streams.map Prod.fst
    exact updStream_keys _ _ _

lemma next_streamView (st : OSState) (rd : ReadDir) (k : Nat) :
    ((ReadDir.next st rd).1.streams.lookup k).map (fun s => (s.fd, s.entries)) =
      (st.streams.lookup k).map (fun s => (s.fd, s.entries)) := by
  rcases next_shape st rd with h | h
  · rw [h]
  · rw [h]
    show ((updStream st.streams rd.dir fun t => { t with pos := t.pos + 1 }).lookup k).map
          (fun s => (s.fd, s.entries)) =
        (st.streams.lookup k).map (fun s => (s.fd, s.entries))
    rw [lookup_updStream]
    by_cases hk : k = rd.dir
    · rw [if_pos hk]
      rcases st.streams.lookup k with _ | s <;> rfl
    · rw [if_neg hk]

lemma runNexts_fds (st : OSState) (rd : ReadDir) (n : Nat) :
    (runNexts st rd n).fds = st.fds := by
  induction n generalizing st with
  | zero => rfl
  | succ n ih =>
      simp only [runNexts]
      rw [ih, next_fds]

lemma runNexts_log (st : OSState) (rd : ReadDir) (n : Nat) :
    (runNexts st rd n).log = st.log := by
  induction n generalizing st with
  | zero => rfl
  | succ n ih =>
      simp only [runNexts]
      rw [ih, next_log]

lemma runNexts_stream_keys (st : OSState) (rd : ReadDir) (n : Nat) :
    (runNexts st rd n).streams.map Prod.fst = st.streams.map Prod.fst := by
  induction n generalizing st with
  | zero => rfl
  | succ n ih =>
      simp only [runNexts]
      rw [ih, next_stream_keys]

lemma runNexts_streamView (st : OSState) (rd : ReadDir) (n : Nat) (k : Nat) :
    ((runNexts st rd n).streams.lookup k).map (fun s => (s.fd, s.entries)) =
      (st.streams.lookup k).map (fun s => (s.fd, s.entries)) := by
  induction n generalizing st with
  | zero => rfl
  | succ n ih =>
      simp only [runNexts]
      rw [ih, next_streamView]

lemma drop_log (st : OSState) (rd : ReadDir) :
    (ReadDir.drop st rd).log = st.log ++ [Event.closedirEv rd.dir] := by
  unfold ReadDir.drop closedir
  rcases hl : st.streams.lookup rd.dir with _ | s <;> rfl

lemma countClosedir_append_ev (l : List Event) (d : Nat) :
    countClosedir (l ++ [Event.closedirEv d]) d = countClosedir l d + 1 := by
  unfold countClosedir
  rw [List.filter_append, List.length_append]
  simp

/-- C5: when descriptor duplication or stream-open fails (invalid
descriptor, unknown descriptor, or a non-directory target), `read_dir`
returns an `IoError`, and the descriptor table and stream table are left
exactly as they were — any duplicated descriptor that was obtained has
been closed again, so the failure path leaves no descriptor half-owned. -/
theorem C5_read_dir_failure_no_leak (st : OSState) (fd off : Int)
    (h : fd < 0 ∨ st.fds.lookup fd = none ∨
      ∃ x, st.fds.lookup fd = some ⟨FileObj.file, x⟩) :
    ∃ er, (read_dir st fd off).2 = Except.error er ∧
      (read_dir st fd off).1.fds = st.fds ∧
      (read_dir st fd off).1.streams = st.streams := by
  by_cases hfd : fd < 0
  · exact ⟨IoErr.osError EBADF,
      by simp [read_dir, fcntl_dupfd_cloexec, hfd, fdopendir, close]⟩
  · rcases h with hbad | hl | ⟨x, hl⟩
    · exact absurd hbad hfd
    · exact ⟨IoErr.osError EBADF,
        by simp [read_dir, fcntl_dupfd_cloexec, hfd, hl, fdopendir, close]⟩
    · have e1 := fcntl_ok st fd ⟨FileObj.file, x⟩ hfd hl
      have hnn : ¬ freshFd st < 0 := not_lt.mpr (freshFd_nonneg st)
      refine ⟨IoErr.osError ENOTDIR, ?_⟩
      simp [read_dir, e1, fdopendir, hnn, lookup_cons_self, close,
        List.eraseP_cons]

/-- C5 witness: opening a reader on a descriptor that is not open fails
with an error and leaves the (empty) tables unchanged. -/
theorem C5_read_dir_failure_no_leak_witness :
    ∃ er, (read_dir ⟨[], [], 0, []⟩ 5 0).2 = Except.error er ∧
      (read_dir ⟨[], [], 0, []⟩ 5 0).1.fds = [] ∧
      (read_dir ⟨[], [], 0, []⟩ 5 0).1.streams = [] :=
  C5_read_dir_failure_no_leak ⟨[], [], 0, []⟩ 5 0 (Or.inr (Or.inl rfl))

/-- C7: every successful `read_dir(dir, offset)` duplicates the caller's
descriptor into a fresh descriptor whose close-on-exec flag is already
set, opens a brand-new native stream on that duplicate (not on the
original), and has seeked the stream to the caller's offset before the
reader is returned. -/
theorem C7_read_dir_dup_cloexec_seek (st : OSState) (fd off : Int) (rd : ReadDir)
    (h : (read_dir st fd off).2 = Except.ok rd) :
    ∃ nfd es x,
      st.fds.lookup fd = some ⟨FileObj.dir es, x⟩ ∧
      st.fds.lookup nfd = none ∧
      nfd ≠ fd ∧
      (read_dir st fd off).1.fds.lookup nfd = some ⟨FileObj.dir es, true⟩ ∧
      st.streams.lookup rd.dir = none ∧
      (read_dir st fd off).1.streams.lookup rd.dir = some ⟨nfd, es, off⟩ := by
  obtain ⟨es, x, hfd, hl, hrd, hst⟩ := read_dir_ok_inv st fd off rd h
  have hdir : rd.dir = freshStreamId st := by rw [hrd]
  refine ⟨freshFd st, es, x, hl, freshFd_lookup_none st, ?_, ?_, ?_, ?_⟩
  · intro he
    have hn := freshFd_lookup_none st
    rw [he, hl] at hn
    exact Option.noConfusion hn
  · rw [hst]
    exact lookup_cons_self _ _ _
  · rw [hdir]
    exact freshStreamId_lookup_none st
  · rw [hst, hdir]
    exact lookup_cons_self _ _ _

/-- C7 witness: a concrete successful `read_dir` call, exhibiting the
fresh close-on-exec duplicate and the seeked stream. -/
theorem C7_read_dir_dup_cloexec_seek_witness :
    ∃ nfd es x,
      (⟨[(3, ⟨FileObj.dir [], false⟩)], [], 0, []⟩ : OSState).fds.lookup 3 =
        some ⟨FileObj.dir es, x⟩ ∧
      (⟨[(3, ⟨FileObj.dir [], false⟩)], [], 0, []⟩ : OSState).fds.lookup nfd = none ∧
      nfd ≠ 3 ∧
      (read_dir ⟨[(3, ⟨FileObj.dir [], false⟩)], [], 0, []⟩ 3 7).1.fds.lookup nfd =
        some ⟨FileObj.dir es, true⟩ ∧
      (⟨[(3, ⟨FileObj.dir [], false⟩)], [], 0, []⟩ : OSState).streams.lookup
        (ReadDir.mk 1).dir = none ∧
      (read_dir ⟨[(3, ⟨FileObj.dir [], false⟩)], [], 0, []⟩ 3 7).1.streams.lookup
        (ReadDir.mk 1).dir = some ⟨nfd, es, 7⟩ :=
  C7_read_dir_dup_cloexec_seek ⟨[(3, ⟨FileObj.dir [], false⟩)], [], 0, []⟩ 3 7 ⟨1⟩ rfl

/-- C9: across a successful `read_dir`, any number of `next()` calls and
the reader's destruction, the caller's original directory descriptor
entry is never closed or modified — the destructor closes only the
duplicated descriptor wrapped in the stream. -/
theorem C9_original_descriptor_untouched (st : OSState) (fd off : Int)
    (rd : ReadDir) (n : Nat) (h : (read_dir st fd off).2 = Except.ok rd) :
    (runNexts (read_dir st fd off).1 rd n).fds.lookup fd = st.fds.lookup fd ∧
    (ReadDir.drop (runNexts (read_dir st fd off).1 rd n) rd).fds.lookup fd =
      st.fds.lookup fd := by
  obtain ⟨es, x, hfd, hl, hrd, hst⟩ := read_dir_ok_inv st fd off rd h
  have hne : freshFd st ≠ fd := by
    intro he
    have hn := freshFd_lookup_none st
    rw [he, hl] at hn
    exact Option.noConfusion hn
  have hdir : rd.dir = freshStreamId st := by rw [hrd]
  have h2 : (read_dir st fd off).1.fds.lookup fd = st.fds.lookup fd := by
    rw [hst]
    exact lookup_cons_ne _ _ _ _ (fun he => hne he.symm)
  have h1 : (runNexts (read_dir st fd off).1 rd n).fds.lookup fd =
      st.fds.lookup fd := by
    rw [runNexts_fds, h2]
  refine ⟨h1, ?_⟩
  have hview : ((runNexts (read_dir st fd off).1 rd n).streams.lookup rd.dir).map
      (fun s => (s.fd, s.entries)) = some (freshFd st, es) := by
    rw [runNexts_streamView, hst, hdir]
    show ((((freshStreamId st, ⟨freshFd st, es, off⟩) :: st.streams).lookup
        (freshStreamId st)).map (fun s => (s.fd, s.entries))) = _
    rw [lookup_cons_self]
    rfl
  rcases hlk : (runNexts (read_dir st fd off).1 rd n).streams.lookup rd.dir with _ | s
  · rw [hlk] at hview
    exact Option.noConfusion hview
  · rw [hlk] at hview
    have hsfd : s.fd = freshFd st := by
      have := Option.some.inj hview
      exact congrArg Prod.fst this
  -- the destructor closes exactly the stream's descriptor, which is the duplicate
    unfold ReadDir.drop closedir
    rw [hlk]
    show (List.eraseP (fun p => p.1 == s.fd)
        (runNexts (read_dir st fd off).1 rd n).fds).lookup fd = st.fds.lookup fd
    rw [lookup_eraseP_ne _ _ _ (by rw [hsfd]; exact fun he => hne he.symm)]
    rw [runNexts_fds, h2]

/-- C9 witness: a concrete scenario — open, two reads, drop — leaves the
original descriptor entry unchanged. -/
theorem C9_original_descriptor_untouched_witness :
    (runNexts (read_dir ⟨[(3, ⟨FileObj.dir [⟨7, 5, 4, [65, 0]⟩], false⟩)], [], 0, []⟩
        3 0).1 ⟨1⟩ 2).fds.lookup 3 =
      ([(3, ⟨FileObj.dir [⟨7, 5, 4, [65, 0]⟩], false⟩)] :
        List (Int × FdEntry)).lookup 3 ∧
    (ReadDir.drop (runNexts (read_dir
        ⟨[(3, ⟨FileObj.dir [⟨7, 5, 4, [65, 0]⟩], false⟩)], [], 0, []⟩
        3 0).1 ⟨1⟩ 2) ⟨1⟩).fds.lookup 3 =
      ([(3, ⟨FileObj.dir [⟨7, 5, 4, [65, 0]⟩], false⟩)] :
        List (Int × FdEntry)).lookup 3 :=
  C9_original_descriptor_untouched
    ⟨[(3, ⟨FileObj.dir [⟨7, 5, 4, [65, 0]⟩], false⟩)], [], 0, []⟩ 3 0 ⟨1⟩ 2 rfl

/-- C1: for every exit path — exhaustion, error, or early abandonment,
all captured by an arbitrary number of `next()` calls before the drop —
destroying the reader records exactly one `closedir` of its stream, and
the stream is gone from the stream table afterwards. -/
theorem C1_stream_closed_exactly_once (st : OSState) (fd off : Int)
    (rd : ReadDir) (n : Nat) (h : (read_dir st fd off).2 = Except.ok rd) :
    countClosedir (ReadDir.drop (runNexts (read_dir st fd off).1 rd n) rd).log rd.dir =
      countClosedir st.log rd.dir + 1 ∧
    (ReadDir.drop (runNexts (read_dir st fd off).1 rd n) rd).streams.lookup rd.dir =
      none := by
  obtain ⟨es, x, hfd, hl, hrd, hst⟩ := read_dir_ok_inv st fd off rd h
  have hdir : rd.dir = freshStreamId st := by rw [hrd]
  constructor
  · rw [drop_log, countClosedir_append_ev]
    have hlog : (runNexts (read_dir st fd off).1 rd n).log = st.log := by
      rw [runNexts_log, hst]
    rw [hlog]
  · have hkeys : (runNexts (read_dir st fd off).1 rd n).streams.map Prod.fst =
        freshStreamId st :: st.streams.map Prod.fst := by
      rw [runNexts_stream_keys, hst]
      rfl
    have hcount : ((runNexts (read_dir st fd off).1 rd n).streams.map
        Prod.fst).count rd.dir ≤ 1 := by
      rw [hkeys, hdir, List.count_cons_self,
        List.count_eq_zero.mpr (freshStreamId_not_mem st)]
    unfold ReadDir.drop closedir
    rcases hlk : (runNexts (read_dir st fd off).1 rd n).streams.lookup rd.dir
      with _ | s
    · exact hlk
    · show (List.eraseP (fun p => p.1 == rd.dir)
          (runNexts (read_dir st fd off).1 rd n).streams).lookup rd.dir = none
      exact lookup_eraseP_self _ _ hcount

/-- C1 witness: a concrete open / iterate / drop run records exactly one
`closedir` and removes the stream. -/
theorem C1_stream_closed_exactly_once_witness :
    countClosedir (ReadDir.drop (runNexts (read_dir
        ⟨[(3, ⟨FileObj.dir [⟨7, 5, 4, [65, 0]⟩], false⟩)], [], 0, []⟩
        3 0).1 ⟨1⟩ 2) ⟨1⟩).log (ReadDir.mk 1).dir =
      countClosedir [] (ReadDir.mk 1).dir + 1 ∧
    (ReadDir.drop (runNexts (read_dir
        ⟨[(3, ⟨FileObj.dir [⟨7, 5, 4, [65, 0]⟩], false⟩)], [], 0, []⟩
        3 0).1 ⟨1⟩ 2) ⟨1⟩).streams.lookup (ReadDir.mk 1).dir = none :=
  C1_stream_closed_exactly_once
    ⟨[(3, ⟨FileObj.dir [⟨7, 5, 4, [65, 0]⟩], false⟩)], [], 0, []⟩ 3 0 ⟨1⟩ 2 rfl

/-- C2 counterexample: at a state whose current native record has a name
buffer with no nul terminator, `next()` panics (the `expect` in
`strip_padding` unwinds) — it does not return an entry, `None`, or an
error value, refuting the claim that an error value is returned in the
no-terminator case. -/
theorem C2_counterexample_panic_on_missing_nul :
    (ReadDir.next ⟨[], [(1, ⟨4, [⟨7, 5, 4, [65, 66]⟩], 0⟩)], 0, []⟩ ⟨1⟩).2 =
      NextOutcome.panicked ∧
    NextOutcome.panicked ≠ NextOutcome.endOfStream := by
  exact ⟨rfl, by decide⟩

/-- C2 (amended): every `next()` call returns the next entry, `None` at
end of stream, or an error value from name validation — except that when
the native record's name buffer contains no nul terminator, `next()`
panics instead of returning an error value. -/
theorem C2_next_outcomes (st : OSState) (rd : ReadDir) :
    (∃ e, (ReadDir.next st rd).2 = NextOutcome.entry e) ∨
    (ReadDir.next st rd).2 = NextOutcome.endOfStream ∨
    (∃ er, (ReadDir.next st rd).2 = NextOutcome.ioError er) ∨
    ((ReadDir.next st rd).2 = NextOutcome.panicked ∧
      ∃ ent, (readdir64 st rd.dir).2 = some ent ∧ 0 ∉ ent.d_name) := by
  rcases h2 : (readdir64 st rd.dir).2 with _ | ent
  · right
    left
    simp only [ReadDir.next, h2]
  · rcases hs : strip_padding ent.d_name with _ | nb
    · right
      right
      right
      constructor
      · simp only [ReadDir.next, h2, hs]
      · refine ⟨ent, rfl, ?_⟩
        have hpn : position ent.d_name = none := by
          unfold strip_padding at hs
          rcases hh : position ent.d_name with _ | k
          · rfl
          · rw [hh] at hs
            exact Option.noConfusion hs
        exact (position_eq_none_iff _).mp hpn
    · rcases hn : P9String.new nb with er | name
      · right
        right
        left
        exact ⟨er, by simp only [ReadDir.next, h2, hs, hn]⟩
      · left
        exact ⟨⟨ent.d_ino, (ent.d_off % 2 ^ 64).toNat, ent.d_type, name⟩,
          by simp only [ReadDir.next, h2, hs, hn]⟩

/-- C6: every `DirEntry` successfully returned by `next()` carries a name
with no nul byte in it — the nul padding of the native record was
stripped before the name was accepted. -/
theorem C6_returned_name_has_no_nul (st : OSState) (rd : ReadDir) (e : DirEntry)
    (h : (ReadDir.next st rd).2 = NextOutcome.entry e) : 0 ∉ e.name.bytes := by
  rcases h2 : (readdir64 st rd.dir).2 with _ | ent
  · simp only [ReadDir.next, h2] at h
    exact absurd h (by simp)
  · rcases hs : strip_padding ent.d_name with _ | nb
    · simp only [ReadDir.next, h2, hs] at h
      exact absurd h (by simp)
    · rcases hn : P9String.new nb with er | name
      · simp only [ReadDir.next, h2, hs, hn] at h
        exact absurd h (by simp)
      · simp only [ReadDir.next, h2, hs, hn, NextOutcome.entry.injEq] at h
        obtain ⟨hb, hnb⟩ := P9String.new_ok nb name hn
        rw [← h]
        show 0 ∉ name.bytes
        rw [hb]
        exact hnb

/-- C6 witness: a concrete entry produced by `next()` has a nul-free
name. -/
theorem C6_returned_name_has_no_nul_witness :
    0 ∉ (DirEntry.mk 7 5 4 (P9String.mk [65, 66])).name.bytes :=
  C6_returned_name_has_no_nul
    ⟨[], [(1, ⟨4, [⟨7, 5, 4, [65, 66, 0, 0]⟩], 0⟩)], 0, []⟩ ⟨1⟩
    (DirEntry.mk 7 5 4 (P9String.mk [65, 66])) rfl

/-- C8: the `offset` of every entry returned by `next()` is exactly the
native record's `d_off` value (an opaque stream-defined resume token),
not a counter maintained by the reader. -/
theorem C8_offset_is_native_d_off (st : OSState) (rd : ReadDir) (s : DirStream)
    (ent : RawDirent) (e : DirEntry)
    (hl : st.streams.lookup rd.dir = some s) (hp : 0 ≤ s.pos)
    (hg : s.entries.get? s.pos.toNat = some ent)
    (hoff : 0 ≤ ent.d_off ∧ ent.d_off < 2 ^ 63)
    (h : (ReadDir.next st rd).2 = NextOutcome.entry e) :
    (e.offset : Int) = ent.d_off := by
  have hr : (readdir64 st rd.dir).2 = some ent := by
    unfold readdir64
    rw [hl]
    show ((if 0 ≤ s.pos then _ else (st, none)) : OSState × Option RawDirent).2 = _
    rw [if_pos hp, hg]
  rcases hs : strip_padding ent.d_name with _ | nb
  · simp only [ReadDir.next, hr, hs] at h
    exact absurd h (by simp)
  · rcases hn : P9String.new nb with er | name
    · simp only [ReadDir.next, hr, hs, hn] at h
      exact absurd h (by simp)
    · simp only [ReadDir.next, hr, hs, hn, NextOutcome.entry.injEq] at h
      rw [← h]
      show ((ent.d_off % 2 ^ 64).toNat : Int) = ent.d_off
      have hlt : ent.d_off < 2 ^ 64 := lt_trans hoff.2 (by norm_num)
      rw [Int.emod_eq_of_lt hoff.1 hlt, Int.toNat_of_nonneg hoff.1]

/-- C8 witness: a concrete entry whose `offset` equals the raw record's
`d_off`. -/
theorem C8_offset_is_native_d_off_witness :
    (((DirEntry.mk 7 5 4 (P9String.mk [65])).offset : Int)) =
      (RawDirent.mk 7 5 4 [65, 0]).d_off :=
  C8_offset_is_native_d_off
    ⟨[], [(1, ⟨4, [⟨7, 5, 4, [65, 0]⟩], 0⟩)], 0, []⟩ ⟨1⟩
    ⟨4, [⟨7, 5, 4, [65, 0]⟩], 0⟩ ⟨7, 5, 4, [65, 0]⟩
    (DirEntry.mk 7 5 4 (P9String.mk [65]))
    rfl (by decide) rfl (by constructor <;> norm_num) rfl
